import Mathlib

/-!
Verification development for the wsl2backup backup orchestrator
(src/wsl2backup.go). The Go source is shallowly embedded over `List Char`
(Go strings) and `List Nat` (byte slices); external process invocations are
modelled by a script of command outcomes that the embedded functions
consume in order.
-/

namespace Wsl2Backup

/-- Go `strings.Contains s pat`: `pat` occurs as a contiguous substring of
`s` (the empty pattern always occurs). -/
def hasSubstring (s pat : List Char) : Bool :=
  match s with
  | [] => pat.isEmpty
  | _ :: t => pat.isPrefixOf s || hasSubstring t pat

/-- The line separator the code splits the listing on (`"\r\n"`). -/
def crlf : List Char := ['\r', '\n']

/-- Go `strings.Split s "\r\n"`: split `s` around each non-overlapping
occurrence of the two-character separator, scanning left to right. -/
def splitCRLF : List Char → List (List Char)
  | [] => [[]]
  | [c] => [[c]]
  | c :: c2 :: rest =>
    if c = '\r' ∧ c2 = '\n' then [] :: splitCRLF rest
    else (splitCRLF (c2 :: rest)).modifyHead (fun h => c :: h)

/-- Join lines with the `"\r\n"` separator (left inverse of `splitCRLF`
on separator-free lines). -/
def joinCRLF : List (List Char) → List Char
  | [] => []
  | [l] => l
  | l :: l2 :: rest => l ++ '\r' :: '\n' :: joinCRLF (l2 :: rest)

/-- Go `strings.Replace d "* " "" -1`: remove every occurrence of the
"currently selected" marker sequence `"* "`, scanning left to right
without rescanning the removed region. -/
def stripMarker : List Char → List Char
  | [] => []
  | [c] => [c]
  | c :: c2 :: rest =>
    if c = '*' ∧ c2 = ' ' then stripMarker rest
    else c :: stripMarker (c2 :: rest)

/-- Go `strings.Fields`: the maximal whitespace-free substrings of `s`.
(Whitespace is `Char.isWhitespace`; the Go original uses `unicode.IsSpace`,
which agrees on the ASCII whitespace produced by the wsl tool.) -/
def fieldsOf (s : List Char) : List (List Char) :=
  (s.splitOnP Char.isWhitespace).filter (fun f => f ≠ [])

/-- Go `strings.EqualFold` restricted to simple case folding: equality up
to `Char.toLower` (agrees with the Go original on ASCII distribution
names). -/
def eqFold (a b : List Char) : Bool :=
  a.map Char.toLower == b.map Char.toLower

/-- The `dinfo` record `distroCheck` parses each listing line into. -/
structure GuestRecord where
  name : List Char
  state : List Char
  version : List Char
deriving DecidableEq, Repr

/-- The all-empty record a malformed line produces (`&dinfo{}`). -/
def emptyRecord : GuestRecord := ⟨[], [], []⟩

/-- Per-line parsing in `distroCheck`: strip the marker, whitespace-split,
and keep the three fields when there are exactly three, otherwise the
zero value. -/
def parseLine (d : List Char) : GuestRecord :=
  match fieldsOf (stripMarker d) with
  | [a, b, c] => ⟨a, b, c⟩
  | _ => emptyRecord

/-- The Registry Reader's parse of a decoded listing: split on `"\r\n"`,
discard the header line (loop index 0), parse each remaining line. -/
def parseListing (res : List Char) : List GuestRecord :=
  ((splitCRLF res).drop 1).map parseLine

/-- Spec-side notion: the first record whose name equals the target
case-insensitively. -/
def firstMatch (target : List Char) (recs : List GuestRecord) :
    Option GuestRecord :=
  recs.find? (fun r => eqFold r.name target)

/-- The literal state token compared against (`"Stopped"`). -/
def stoppedStr : List Char := "Stopped".data

/-- Outcome of the scan loop in `distroCheck` over the data lines. -/
inductive ScanRes
  | stoppedMatch
  | runningMatch (name : List Char)
  | noMatch
deriving DecidableEq, Repr

/-- The loop body of `distroCheck`: parse each line in order; the first
line whose parsed name equals the target case-insensitively decides the
outcome (state literally `"Stopped"`, or anything else). -/
def scanLines (target : List Char) : List (List Char) → ScanRes
  | [] => .noMatch
  | d :: rest =>
    if eqFold (parseLine d).name target then
      if (parseLine d).state = stoppedStr then .stoppedMatch
      else .runningMatch (parseLine d).name
    else scanLines target rest

/-- Outcome of one external `wsl` (or `compact`) process invocation, as
scripted by the environment: the decoded stdout text on success, or a
process failure (launch, read, or non-zero exit). -/
inductive CmdOut
  | ok (text : List Char)
  | fail
deriving DecidableEq, Repr

/-- The `(bool, error)` value `distroCheck` returns. -/
inductive DCRes
  | found (b : Bool)
  | busy (name : List Char)
  | procErr
deriving DecidableEq, Repr

/-- Result of a `distroCheck` run together with the number of registry
reads (`wsl -l -v` invocations), the number of terminate commands issued,
and the unconsumed remainder of the environment script. -/
structure DCOut where
  result : DCRes
  reads : Nat
  terms : Nat
  rest : List CmdOut
deriving DecidableEq, Repr

/-- The guest name carried by a `runningMatch` scan outcome. -/
def scanName : ScanRes → List Char
  | .runningMatch name => name
  | _ => []

/-- Whether the scripted terminate invocation succeeded (the code only
checks `wslCmd`'s error and discards its output). -/
def termRead : List CmdOut → Bool
  | .ok _ :: _ => true
  | _ => false

/-- Function `distroCheck` from the source, with each `wslCmd` call consuming the
next scripted outcome (an exhausted script counts as a failed
invocation). Reads the listing; scans for the first case-insensitive name
match; `"Stopped"` means found; otherwise terminate-and-recurse when
forced, or a busy error naming the guest; no match means `(false, nil)`. -/
def distroCheck (force : Bool) (target : List Char) :
    List CmdOut → DCOut
  | [] => ⟨.procErr, 1, 0, []⟩
  | .fail :: rest => ⟨.procErr, 1, 0, rest⟩
  | .ok res :: rest =>
    if scanLines target ((splitCRLF res).drop 1) = .stoppedMatch then
      ⟨.found true, 1, 0, rest⟩
    else if scanLines target ((splitCRLF res).drop 1) = .noMatch then
      ⟨.found false, 1, 0, rest⟩
    else if force then
      if termRead rest then
        (fun o => ⟨o.result, o.reads + 1, o.terms + 1, o.rest⟩)
          (distroCheck force target rest.tail)
      else ⟨.procErr, 1, 1, rest.tail⟩
    else
      ⟨.busy (scanName (scanLines target ((splitCRLF res).drop 1))), 1, 0,
        rest⟩
termination_by s => s.length
decreasing_by simp [List.length_tail]; omega

/-! ## Text Decoder

`wslCmd` decodes stdout with
`unicode.BOMOverride(unicode.UTF16(unicode.LittleEndian, unicode.IgnoreBOM).NewDecoder())`
from golang.org/x/text. The embedded semantics below follow that
library's transformer: BOM dispatch on the first bytes, then UTF-16
code-unit decoding where every ill-formed unit becomes U+FFFD. -/

/-- One 16-bit code unit from two bytes, little- or big-endian. -/
def unitAt (le : Bool) (b0 b1 : Nat) : Nat :=
  if le then b0 + 256 * b1 else 256 * b0 + b1

/-- UTF-16 surrogate code unit (`utf16.IsSurrogate`). -/
def isSurr (r : Nat) : Bool := 0xD800 ≤ r && r < 0xE000

/-- High (leading) surrogate. -/
def isHighSurr (r : Nat) : Bool := 0xD800 ≤ r && r < 0xDC00

/-- Low (trailing) surrogate. -/
def isLowSurr (r : Nat) : Bool := 0xDC00 ≤ r && r < 0xE000

/-- Go `utf16.DecodeRune`: combine a surrogate pair, or U+FFFD when the pair
is not (high, low). -/
def decodePair (hi lo : Nat) : Nat :=
  if isHighSurr hi && isLowSurr lo then
    0x10000 + (hi - 0xD800) * 0x400 + (lo - 0xDC00)
  else 0xFFFD

/-- The x/text UTF-16 decoder body (`utf16Decoder.Transform` at EOF):
two bytes make a unit; a surrogate unit followed by a low-surrogate unit
is combined (U+FFFD when the first is not a high surrogate); a surrogate
not so followed and a lone trailing byte each become U+FFFD. It never
returns an error. -/
def utf16Decode (le : Bool) : List Nat → List Nat
  | [] => []
  | [_] => [0xFFFD]
  | [b0, b1] =>
    if isSurr (unitAt le b0 b1) then [0xFFFD] else [unitAt le b0 b1]
  | [b0, b1, b2] =>
    if isSurr (unitAt le b0 b1) then 0xFFFD :: utf16Decode le [b2]
    else unitAt le b0 b1 :: utf16Decode le [b2]
  | b0 :: b1 :: b2 :: b3 :: rest2 =>
    if isSurr (unitAt le b0 b1) then
      if isLowSurr (unitAt le b2 b3) then
        decodePair (unitAt le b0 b1) (unitAt le b2 b3) ::
          utf16Decode le rest2
      else 0xFFFD :: utf16Decode le (b2 :: b3 :: rest2)
    else unitAt le b0 b1 :: utf16Decode le (b2 :: b3 :: rest2)

/-- Go `utf8.EncodeRune` on the scalar values `utf16Decode` emits. -/
def utf8Encode (r : Nat) : List Nat :=
  if r < 0x80 then [r]
  else if r < 0x800 then [0xC0 + r / 64, 0x80 + r % 64]
  else if r < 0x10000 then
    [0xE0 + r / 4096, 0x80 + (r / 64) % 64, 0x80 + r % 64]
  else
    [0xF0 + r / 262144, 0x80 + (r / 4096) % 64, 0x80 + (r / 64) % 64,
      0x80 + r % 64]

/-- UTF-8 encode a scalar-value sequence. -/
def utf8EncodeAll (rs : List Nat) : List Nat :=
  (rs.map utf8Encode).flatten

/-- Byte-sequence test used by the BOM dispatch (Go `bytes.HasPrefix`). -/
def startsWith (pat b : List Nat) : Bool :=
  match pat, b with
  | [], _ => true
  | _ :: _, [] => false
  | a :: pa, c :: cb => a == c && startsWith pa cb

/-- The UTF-8 byte-order mark. -/
def bomUTF8 : List Nat := [0xEF, 0xBB, 0xBF]

/-- The UTF-16 big-endian byte-order mark. -/
def bomBE : List Nat := [0xFE, 0xFF]

/-- The UTF-16 little-endian byte-order mark. -/
def bomLE : List Nat := [0xFF, 0xFE]

/-- The whole decoding step of `wslCmd`
(`unicode.BOMOverride` around the little-endian `IgnoreBOM` fallback):
a recognized leading mark selects and strips that encoding; otherwise the
bytes are decoded as little-endian UTF-16. Output is UTF-8 bytes. -/
def decodeWsl (b : List Nat) : List Nat :=
  if startsWith bomUTF8 b then b.drop 3
  else if startsWith bomBE b then utf8EncodeAll (utf16Decode false (b.drop 2))
  else if startsWith bomLE b then utf8EncodeAll (utf16Decode true (b.drop 2))
  else utf8EncodeAll (utf16Decode true b)

/-! ## wslCmd / wslExport -/

/-- What the environment does to one `wslCmd` process: whether the stdout
pipe, process start, or output read fails, the raw stdout bytes captured,
and whether `cmd.Wait` reports a zero exit. -/
structure ProcResult where
  pipeErr : Bool
  startErr : Bool
  readErr : Bool
  stdout : List Nat
  waitOk : Bool
deriving DecidableEq, Repr

/-- Function `wslCmd`, returning `(bytes-or-nil, ok)`. Pipe and start failures return nil
bytes; a read failure returns the bytes read so far with the error; a
non-zero exit returns the captured bytes with the error; only the
success path applies the UTF-16 to UTF-8 decoding. -/
def wslCmdModel (p : ProcResult) : Option (List Nat) × Bool :=
  if p.pipeErr then (none, false)
  else if p.startErr then (none, false)
  else if p.readErr then (some p.stdout, false)
  else if !p.waitOk then (some p.stdout, false)
  else (some (decodeWsl p.stdout), true)

/-- Function `wslExport`: runs `wslCmd` and logs the returned byte slice on both
the failure (`"Failed: %s"`) and success paths; returns `(ok, logged
bytes)`, with nil logged as empty. -/
def wslExportModel (p : ProcResult) : Bool × List Nat :=
  ((wslCmdModel p).2, ((wslCmdModel p).1).getD [])

/-! ## zipFile and the ZIP stage of main -/

/-- File contents on the modelled filesystem: the plain bytes of an
ordinary file, a completely written zip archive (name/content entries in
order), or a created-but-not-successfully-closed zip file. -/
inductive FileData
  | plain (content : List Nat)
  | zipArchive (entries : List (List Char × List Nat))
  | zipPending
deriving DecidableEq, Repr

/-- The filesystem: an association list from paths to contents. -/
def FS := List (List Char × FileData)
deriving instance DecidableEq, Repr for FS

/-- Create or truncate `p` with contents `d` (keeps first-binding order). -/
def fsSet (fs : FS) (p : List Char) (d : FileData) : FS :=
  match fs with
  | [] => [(p, d)]
  | (q, e) :: rest => if q = p then (p, d) :: rest else (q, e) :: fsSet rest p d

/-- Go `os.Remove p` (a missing path is ignored by the caller anyway). -/
def fsRemove (fs : FS) (p : List Char) : FS :=
  fs.filter (fun x => x.1 ≠ p)

/-- Look up a path. -/
def fsLookup (fs : FS) (p : List Char) : Option FileData :=
  match fs with
  | [] => none
  | (q, e) :: rest => if q = p then some e else fsLookup rest p

/-- Which of `zipFile`'s fallible steps the environment makes fail, and
how many bytes `io.Copy` manages to read before a read failure. -/
structure ZipOracle where
  createErr : Bool
  entryErr : Bool
  openErr : Bool
  readErr : Bool
  readData : List Nat
  wCloseErr : Bool
  ufCloseErr : Bool
deriving DecidableEq, Repr

/-- The error `zipFile` returns, by failing step. -/
inductive ZipError
  | createFailed
  | entryFailed
  | openFailed
  | wCloseFailed
  | ufCloseFailed
deriving DecidableEq, Repr

/-- Function `zipFile fn`: create `fn ++ ".zip"`, create the single archive entry
named `fn`, open the original, `io.Copy` the bytes (the code discards the
error `io.Copy` returns, so a failed read just leaves `readData` in the
entry), close the archive writer, close the original. Returns the error
(`none` on success) and the resulting filesystem. -/
def zipFile (fs : FS) (fn : List Char) (e : ZipOracle) :
    Option ZipError × FS :=
  let zof := fn ++ (".zip").data
  if e.createErr then (some .createFailed, fs)
  else
    let fs1 := fsSet fs zof .zipPending
    if e.entryErr then (some .entryFailed, fs1)
    else
      match fsLookup fs fn with
      | some (.plain content) =>
        if e.openErr then (some .openFailed, fs1)
        else
          let copied := if e.readErr then e.readData else content
          if e.wCloseErr then (some .wCloseFailed, fs1)
          else
            let fs2 := fsSet fs1 zof (.zipArchive [(fn, copied)])
            if e.ufCloseErr then (some .ufCloseFailed, fs2)
            else (none, fs2)
      | _ => (some .openFailed, fs1)

/-- The ZIP branch of `main`: run `zipFile` and, only when it succeeded
and the keep flag is off, `os.Remove` the original output file. -/
def zipStage (fs : FS) (of : List Char) (e : ZipOracle) (keep : Bool) :
    Option ZipError × FS :=
  match zipFile fs of e with
  | (none, fs1) => (none, if keep then fs1 else fsRemove fs1 of)
  | r => r

/-! ## compactFile -/

/-- The confirmation phrase `compactFile` greps the utility output for. -/
def compactPhrase : List Char :=
  "1 files within 1 directories were compressed".data

/-- The error `compactFile` returns: a process failure (pipe, start,
read, or non-zero exit), or the verification failure carrying the raw
captured output. -/
inductive CompactError
  | procErr
  | verifyErr (raw : List Char)
deriving DecidableEq, Repr

/-- Function `compactFile` on a scripted `compact /c` invocation: propagate a
process failure; otherwise succeed exactly when the captured output
contains the confirmation phrase, and fail with the raw output
otherwise. -/
def compactFile (out : CmdOut) : Option CompactError :=
  match out with
  | .fail => some .procErr
  | .ok res =>
    if hasSubstring res compactPhrase then none
    else some (.verifyErr res)

/-- The message of the verification error (`"compact failed: %s"`). -/
def compactErrMsg (raw : List Char) : List Char :=
  ("compact failed: ").data ++ raw

/-! ## main -/

/-- The parsed command-line flags. -/
structure Config where
  distro : List Char
  outfile : List Char
  outfmt : List Char
  outzip : Bool
  force : Bool
  compact : Bool
  keep : Bool
deriving DecidableEq, Repr

/-- The environment a run of `main` interacts with: the scripted
outcomes of successive `wsl` invocations, the bytes a successful export
writes, the scripted `compact` outcome, the `zipFile` failure oracle,
the initial filesystem, and the timestamp `outputName` would use. -/
structure Env where
  wslScript : List CmdOut
  exportBytes : List Nat
  compactOut : CmdOut
  zipErrs : ZipOracle
  fs0 : FS
  now : List Char
deriving DecidableEq, Repr

/-- Function `outputName`: `"<timestamp>-<distro>.<format>"`. -/
def outputName (now fmt distro : List Char) : List Char :=
  now ++ ('-' :: distro) ++ ('.' :: fmt)

/-- How a run of `main` ends. -/
inductive MainExit
  | fatalFmtZip
  | fatalFmtUnsupported
  | fatalConflict
  | fatalDistroErr
  | fatalNotFound
  | fatalExport
  | fatalZip
  | fatalCompact
  | success
deriving DecidableEq, Repr

/-- External processes a run of `main` spawned: `wsl` invocations
(list, terminate, and export commands) and `compact` invocations. -/
structure Trace where
  wslCalls : Nat
  compactCalls : Nat
deriving DecidableEq, Repr

/-- Function `main` after flag parsing: validate the export format, reject `-z`
together with `-c`, resolve the distribution, derive the output name,
export, and run the selected post-processing stage. Returns the exit
mode, the spawned-process trace, and the final filesystem. -/
def mainRun (cfg : Config) (env : Env) : MainExit × Trace × FS :=
  if cfg.outfmt = ("vhdx").data ∨ cfg.outfmt = ("tar").data then
    if cfg.outzip && cfg.compact then (.fatalConflict, ⟨0, 0⟩, env.fs0)
    else
      let dc := distroCheck cfg.force cfg.distro env.wslScript
      let calls := dc.reads + dc.terms
      match dc.result with
      | .procErr => (.fatalDistroErr, ⟨calls, 0⟩, env.fs0)
      | .busy _ => (.fatalDistroErr, ⟨calls, 0⟩, env.fs0)
      | .found false => (.fatalNotFound, ⟨calls, 0⟩, env.fs0)
      | .found true =>
        let of :=
          if cfg.outfile = [] then outputName env.now cfg.outfmt cfg.distro
          else cfg.outfile
        match dc.rest with
        | [] => (.fatalExport, ⟨calls + 1, 0⟩, env.fs0)
        | .fail :: _ => (.fatalExport, ⟨calls + 1, 0⟩, env.fs0)
        | .ok _ :: _ =>
          let fs1 := fsSet env.fs0 of (.plain env.exportBytes)
          if cfg.outzip then
            match zipStage fs1 of env.zipErrs cfg.keep with
            | (none, fs2) => (.success, ⟨calls + 1, 0⟩, fs2)
            | (some _, fs2) => (.fatalZip, ⟨calls + 1, 0⟩, fs2)
          else if cfg.compact then
            match compactFile env.compactOut with
            | none => (.success, ⟨calls + 1, 1⟩, fs1)
            | some _ => (.fatalCompact, ⟨calls + 1, 1⟩, fs1)
          else (.success, ⟨calls + 1, 0⟩, fs1)
  else if cfg.outfmt = ("zip").data then (.fatalFmtZip, ⟨0, 0⟩, env.fs0)
  else (.fatalFmtUnsupported, ⟨0, 0⟩, env.fs0)

/-! ## Spec-side definitions (for refutation of spec wording) -/

/-- Modelled from the claim wording "stripping a leading currently
selected marker sequence": remove only a leading `"* "`. The source
instead removes every occurrence (`strings.Replace` with `n = -1`);
see `stripMarker`. -/
def specStripLeading (l : List Char) : List Char :=
  if ['*', ' '].isPrefixOf l then l.drop 2 else l

/-! ## Helper lemmas -/

theorem hasSubstring_cons (c : Char) (t pat : List Char) :
    hasSubstring (c :: t) pat = (pat.isPrefixOf (c :: t) || hasSubstring t pat) := rfl

theorem crlf_not_prefix_of_cons_cons {c d : Char} {r : List Char}
    (h : hasSubstring (c :: d :: r) crlf = false) :
    ¬(c = '\r' ∧ d = '\n') := by
  rw [hasSubstring_cons] at h
  simp only [Bool.or_eq_false_iff] at h
  intro hcd
  rcases hcd with ⟨hc, hd⟩
  subst hc; subst hd
  simp [crlf, List.isPrefixOf] at h

theorem hasSubstring_tail {c : Char} {t pat : List Char}
    (h : hasSubstring (c :: t) pat = false) : hasSubstring t pat = false := by
  rw [hasSubstring_cons] at h
  simp only [Bool.or_eq_false_iff] at h
  exact h.2

theorem splitCRLF_sepfree (s : List Char)
    (h : hasSubstring s crlf = false) : splitCRLF s = [s] := by
  induction s with
  | nil => rfl
  | cons c t ih =>
    cases t with
    | nil => rfl
    | cons d r =>
      have hcd := crlf_not_prefix_of_cons_cons h
      rw [splitCRLF, if_neg hcd, ih (hasSubstring_tail h)]
      rfl

theorem splitCRLF_append (s t : List Char)
    (h : hasSubstring s crlf = false) :
    splitCRLF (s ++ '\r' :: '\n' :: t) = s :: splitCRLF t := by
  induction s with
  | nil =>
    rw [List.nil_append, splitCRLF, if_pos ⟨rfl, rfl⟩]
  | cons c s' ih =>
    cases s' with
    | nil =>
      have hne : ¬(c = '\r' ∧ '\r' = '\n') := by simp
      rw [List.cons_append, List.nil_append, splitCRLF, if_neg hne,
        splitCRLF, if_pos ⟨rfl, rfl⟩]
      rfl
    | cons d s'' =>
      have hcd := crlf_not_prefix_of_cons_cons h
      rw [List.cons_append, List.cons_append, splitCRLF, if_neg hcd]
      rw [← List.cons_append, ih (hasSubstring_tail h)]
      rfl

theorem splitCRLF_join (lines : List (List Char))
    (h : ∀ l ∈ lines, hasSubstring l crlf = false) (hne : lines ≠ []) :
    splitCRLF (joinCRLF lines) = lines := by
  induction lines with
  | nil => exact absurd rfl hne
  | cons l rest ih =>
    cases rest with
    | nil =>
      rw [joinCRLF]
      exact splitCRLF_sepfree l (h l (by simp))
    | cons l2 rest2 =>
      rw [joinCRLF, splitCRLF_append l _ (h l (by simp))]
      rw [ih (fun x hx => h x (List.mem_cons_of_mem l hx)) (by simp)]

theorem parseLine_fields3 (l a b c : List Char)
    (h : fieldsOf (stripMarker l) = [a, b, c]) :
    parseLine l = ⟨a, b, c⟩ := by
  unfold parseLine
  rw [h]

theorem parseLine_malformed (l : List Char)
    (h : (fieldsOf (stripMarker l)).length ≠ 3) :
    parseLine l = emptyRecord := by
  unfold parseLine
  rcases hf : fieldsOf (stripMarker l) with _ | ⟨a, _ | ⟨b, _ | ⟨c, _ | ⟨d, e⟩⟩⟩⟩
  · rfl
  · rfl
  · rfl
  · exact absurd (by rw [hf]; rfl) h
  · rfl

theorem scanLines_of_find?_none (target : List Char)
    (lines : List (List Char))
    (h : (lines.map parseLine).find? (fun r => eqFold r.name target) = none) :
    scanLines target lines = .noMatch := by
  induction lines with
  | nil => rfl
  | cons d rest ih =>
    rw [List.map_cons] at h
    cases hp : eqFold (parseLine d).name target with
    | true => simp [List.find?_cons, hp] at h
    | false =>
      simp only [List.find?_cons, hp, Bool.false_eq_true, if_false] at h
      rw [scanLines, if_neg (by simp [hp])]
      exact ih h

theorem scanLines_of_find?_some (target : List Char)
    (lines : List (List Char)) (r : GuestRecord)
    (h : (lines.map parseLine).find? (fun r => eqFold r.name target) = some r) :
    scanLines target lines =
      if r.state = stoppedStr then .stoppedMatch else .runningMatch r.name := by
  induction lines with
  | nil => simp at h
  | cons d rest ih =>
    rw [List.map_cons] at h
    cases hp : eqFold (parseLine d).name target with
    | true =>
      simp only [List.find?_cons, hp, if_true] at h
      rw [Option.some_inj] at h
      subst h
      rw [scanLines, if_pos hp]
    | false =>
      simp only [List.find?_cons, hp, Bool.false_eq_true, if_false] at h
      rw [scanLines, if_neg (by simp [hp])]
      exact ih h

/-! ## Claim theorems -/

/-- C1: with force-stop disabled, `distroCheck` on any registry listing
performs exactly this case analysis on the first record whose name equals
the target case-insensitively: state literally `"Stopped"` gives
`(true, nil)`; any other state gives `(false, GuestBusyError name)`; no
matching record gives `(false, nil)`. In all three cases it performs one
registry read and issues zero terminate commands. -/
theorem distroCheck_noforce_cases (res target : List Char)
    (extra : List CmdOut) :
    (firstMatch target (parseListing res) = none →
      distroCheck false target (.ok res :: extra) =
        ⟨.found false, 1, 0, extra⟩) ∧
    (∀ r, firstMatch target (parseListing res) = some r →
      r.state = stoppedStr →
      distroCheck false target (.ok res :: extra) =
        ⟨.found true, 1, 0, extra⟩) ∧
    (∀ r, firstMatch target (parseListing res) = some r →
      r.state ≠ stoppedStr →
      distroCheck false target (.ok res :: extra) =
        ⟨.busy r.name, 1, 0, extra⟩) := by
  refine ⟨?_, ?_, ?_⟩
  · intro h
    have hs := scanLines_of_find?_none target ((splitCRLF res).drop 1)
      (by simpa [firstMatch, parseListing] using h)
    simp only [distroCheck]
    rw [hs]
    simp
  · intro r h hstate
    have hs := scanLines_of_find?_some target ((splitCRLF res).drop 1) r
      (by simpa [firstMatch, parseListing] using h)
    rw [if_pos hstate] at hs
    simp only [distroCheck]
    rw [hs]
    simp
  · intro r h hstate
    have hs := scanLines_of_find?_some target ((splitCRLF res).drop 1) r
      (by simpa [firstMatch, parseListing] using h)
    rw [if_neg hstate] at hs
    simp only [distroCheck]
    rw [hs]
    simp [scanName]

/-- Witness for C1 at a concrete listing: a stopped guest matched
case-insensitively, one read, zero terminates; plus the not-found case. -/
theorem distroCheck_noforce_cases_witness :
    distroCheck false (("ubuntu").data)
      [.ok (("  NAME            STATE           VERSION\r\n* Ubuntu          Stopped         2").data)] =
      ⟨.found true, 1, 0, []⟩ ∧
    distroCheck false (("debian").data)
      [.ok (("  NAME            STATE           VERSION\r\n* Ubuntu          Stopped         2").data)] =
      ⟨.found false, 1, 0, []⟩ :=
  ⟨(distroCheck_noforce_cases _ _ _).2.1
      ⟨("Ubuntu").data, ("Stopped").data, ("2").data⟩ (by decide) (by decide),
    (distroCheck_noforce_cases _ _ _).1 (by decide)⟩

/-- C2: with force-stop enabled and the first matching record not in
state `"Stopped"`, `distroCheck` issues exactly one terminate command and
re-reads the registry exactly once more (two reads in total) before
concluding ready, assuming the second read reports the guest stopped;
the re-resolution consumes the script exactly like a fresh
`distroCheck` on the same target. -/
theorem distroCheck_force_stop_once (res1 tOut res2 target : List Char)
    (extra : List CmdOut) (r1 r2 : GuestRecord)
    (h1 : firstMatch target (parseListing res1) = some r1)
    (hs1 : r1.state ≠ stoppedStr)
    (h2 : firstMatch target (parseListing res2) = some r2)
    (hs2 : r2.state = stoppedStr) :
    distroCheck true target (.ok res1 :: .ok tOut :: .ok res2 :: extra) =
      ⟨.found true, 2, 1, extra⟩ := by
  have hsc1 := scanLines_of_find?_some target ((splitCRLF res1).drop 1) r1
    (by simpa [firstMatch, parseListing] using h1)
  rw [if_neg hs1] at hsc1
  have hsc2 := scanLines_of_find?_some target ((splitCRLF res2).drop 1) r2
    (by simpa [firstMatch, parseListing] using h2)
  rw [if_pos hs2] at hsc2
  have hinner : distroCheck true target (.ok res2 :: extra) =
      ⟨.found true, 1, 0, extra⟩ := by
    simp only [distroCheck]
    rw [hsc2]
    simp
  simp only [distroCheck]
  rw [hsc1]
  simp [hinner, termRead]

/-- Witness for C2: a running guest, one terminate, a second read showing
it stopped. -/
theorem distroCheck_force_stop_once_witness :
    distroCheck true (("kali-linux").data)
      [.ok (("  NAME       STATE      VERSION\r\n* kali-linux Running    2").data),
        .ok [],
        .ok (("  NAME       STATE      VERSION\r\n* kali-linux Stopped    2").data)] =
      ⟨.found true, 2, 1, []⟩ :=
  distroCheck_force_stop_once _ _ _ _ _
    ⟨("kali-linux").data, ("Running").data, ("2").data⟩
    ⟨("kali-linux").data, ("Stopped").data, ("2").data⟩
    (by decide) (by decide) (by decide) (by decide)

/-- C10: a malformed listing line parses to the all-empty record; the
empty name matches a target exactly when the target is empty; hence for a
non-empty target a malformed line is skipped by the scan (no spurious
found/busy outcome), while for the empty target the first malformed line
matches and, its state being empty rather than `"Stopped"`, is treated as
a running guest. -/
theorem malformed_line_never_matches (target : List Char) :
    (∀ d, (fieldsOf (stripMarker d)).length ≠ 3 →
      parseLine d = emptyRecord) ∧
    (eqFold [] target = true ↔ target = []) ∧
    (target ≠ [] → ∀ d rest, (fieldsOf (stripMarker d)).length ≠ 3 →
      scanLines target (d :: rest) = scanLines target rest) ∧
    (target = [] → ∀ d rest, (fieldsOf (stripMarker d)).length ≠ 3 →
      scanLines target (d :: rest) = .runningMatch []) := by
  have hiff : eqFold [] target = true ↔ target = [] := by
    constructor
    · intro h
      have hmap : ([] : List Char) = target.map Char.toLower := by
        simpa [eqFold] using h
      cases target with
      | nil => rfl
      | cons c t => simp at hmap
    · intro h
      subst h
      rfl
  refine ⟨parseLine_malformed, hiff, ?_, ?_⟩
  · intro ht d rest hm
    rw [scanLines, parseLine_malformed d hm]
    exact if_neg (fun habs => ht (hiff.mp habs))
  · intro ht d rest hm
    subst ht
    rw [scanLines, parseLine_malformed d hm,
      if_pos (show eqFold emptyRecord.name [] = true by decide),
      if_neg (show ¬emptyRecord.state = stoppedStr by decide)]
    rfl

/-- Witness for C10: a six-field line is skipped for the target "x" and
treated as a running match for the empty target. -/
theorem malformed_line_never_matches_witness :
    scanLines (("x").data) [("not a valid data line here").data] =
      .noMatch ∧
    scanLines [] [("not a valid data line here").data] =
      .runningMatch [] :=
  ⟨((malformed_line_never_matches (("x").data)).2.2.1 (by decide) _ []
      (by decide)).trans rfl,
    (malformed_line_never_matches []).2.2.2 rfl _ [] (by decide)⟩

/-- C3 counterexample: under the claim's reading (three fields **after
stripping a leading marker**) the line `"foo Running * 2"` is malformed
and should give the all-empty record, but the reader removes every
occurrence of `"* "` and yields a fully populated record. -/
theorem parseLine_marker_not_leading_only :
    (fieldsOf (specStripLeading (("foo Running * 2").data))).length = 4 ∧
    parseLine (("foo Running * 2").data) =
      ⟨("foo").data, ("Running").data, ("2").data⟩ ∧
    parseListing (("header line\r\nfoo Running * 2").data) =
      [⟨("foo").data, ("Running").data, ("2").data⟩] := by decide

/-- C3 (amended): with the marker sequence `"* "` removed at **every**
occurrence in a line (as `strings.Replace` with count -1 does) rather
than only a leading one, the claim holds: for a header line and N
separator-free data lines the reader discards the header and produces
exactly N records in listing order, a line with exactly three fields
after marker removal giving those fields and any other line giving the
all-empty record. -/
theorem parseListing_amended (header : List Char)
    (lines : List (List Char))
    (hh : hasSubstring header crlf = false)
    (hl : ∀ l ∈ lines, hasSubstring l crlf = false)
    (hne : lines ≠ []) :
    parseListing (header ++ '\r' :: '\n' :: joinCRLF lines) =
      lines.map parseLine ∧
    (parseListing (header ++ '\r' :: '\n' :: joinCRLF lines)).length =
      lines.length ∧
    (∀ l a b c, fieldsOf (stripMarker l) = [a, b, c] →
      parseLine l = ⟨a, b, c⟩) ∧
    (∀ l, (fieldsOf (stripMarker l)).length ≠ 3 →
      parseLine l = emptyRecord) := by
  have key : parseListing (header ++ '\r' :: '\n' :: joinCRLF lines) =
      lines.map parseLine := by
    unfold parseListing
    rw [splitCRLF_append header _ hh, splitCRLF_join lines hl hne]
    rfl
  exact ⟨key, by rw [key, List.length_map], parseLine_fields3,
    parseLine_malformed⟩

/-- Witness for C3's amended theorem at a concrete two-line listing (one
well-formed line with the marker, one malformed line). -/
theorem parseListing_amended_witness :
    parseListing (("  NAME STATE VERSION").data ++ '\r' :: '\n' ::
        joinCRLF [("* Ubuntu Stopped 2").data, ("badline").data]) =
      List.map parseLine
        [("* Ubuntu Stopped 2").data, ("badline").data] :=
  (parseListing_amended _ _ (by decide) (by decide) (by decide)).1

/-- C4 (code-bug exhibit): the read of the original fails at offset 0
(`io.Copy` returns an error having copied nothing), yet `zipFile` returns
success — the source discards the value `io.Copy` returns — with an
empty archive entry, and the ZIP stage of `main` then removes the
original. The spec instead requires any read failure to abort with the
original left intact. -/
theorem zipStage_copy_error_ignored :
    zipFile [(("f").data, .plain [1, 2, 3])] (("f").data)
        ⟨false, false, false, true, [], false, false⟩ =
      (none, [(("f").data, .plain [1, 2, 3]),
        (("f.zip").data, .zipArchive [(("f").data, [])])]) ∧
    zipStage [(("f").data, .plain [1, 2, 3])] (("f").data)
        ⟨false, false, false, true, [], false, false⟩ false =
      (none, [(("f.zip").data, .zipArchive [(("f").data, [])])]) := by
  decide

/-- C5: when both the ZIP flag and the compact flag are set, `main`
terminates during flag validation: no `wsl` process (registry read,
terminate, or export) and no `compact` process is ever spawned, the
filesystem is untouched, and with a valid export format the exit is
precisely the configuration-conflict error. -/
theorem mainRun_rejects_zip_and_compact (cfg : Config) (env : Env)
    (hz : cfg.outzip = true) (hc : cfg.compact = true) :
    (mainRun cfg env).2.1 = ⟨0, 0⟩ ∧
    (mainRun cfg env).2.2 = env.fs0 ∧
    ((mainRun cfg env).1 = .fatalConflict ∨
      (mainRun cfg env).1 = .fatalFmtZip ∨
      (mainRun cfg env).1 = .fatalFmtUnsupported) ∧
    (cfg.outfmt = ("vhdx").data ∨ cfg.outfmt = ("tar").data →
      (mainRun cfg env).1 = .fatalConflict) := by
  by_cases hf : cfg.outfmt = ("vhdx").data ∨ cfg.outfmt = ("tar").data
  · have hrun : mainRun cfg env = (.fatalConflict, ⟨0, 0⟩, env.fs0) := by
      unfold mainRun
      rw [if_pos hf, hz, hc]
      simp
    rw [hrun]
    exact ⟨rfl, rfl, Or.inl rfl, fun _ => rfl⟩
  · by_cases hfz : cfg.outfmt = ("zip").data
    · have hrun : mainRun cfg env = (.fatalFmtZip, ⟨0, 0⟩, env.fs0) := by
        unfold mainRun
        rw [if_neg hf, if_pos hfz]
      rw [hrun]
      exact ⟨rfl, rfl, Or.inr (Or.inl rfl), fun h => absurd h hf⟩
    · have hrun : mainRun cfg env = (.fatalFmtUnsupported, ⟨0, 0⟩, env.fs0) := by
        unfold mainRun
        rw [if_neg hf, if_neg hfz]
      rw [hrun]
      exact ⟨rfl, rfl, Or.inr (Or.inr rfl), fun h => absurd h hf⟩

/-- Witness for C5 at a concrete conflicting configuration. -/
theorem mainRun_rejects_zip_and_compact_witness :
    (mainRun ⟨("kali-linux").data, [], ("vhdx").data, true, false, true,
        false⟩
      ⟨[], [], .ok [], ⟨false, false, false, false, [], false, false⟩, [],
        []⟩).1 = .fatalConflict ∧
    (mainRun ⟨("kali-linux").data, [], ("vhdx").data, true, false, true,
        false⟩
      ⟨[], [], .ok [], ⟨false, false, false, false, [], false, false⟩, [],
        []⟩).2.1 = ⟨0, 0⟩ ∧
    (mainRun ⟨("kali-linux").data, [], ("vhdx").data, true, false, true,
        false⟩
      ⟨[], [], .ok [], ⟨false, false, false, false, [], false, false⟩, [],
        []⟩).2.2 = [] :=
  have h := mainRun_rejects_zip_and_compact
    ⟨("kali-linux").data, [], ("vhdx").data, true, false, true, false⟩
    ⟨[], [], .ok [], ⟨false, false, false, false, [], false, false⟩, [], []⟩
    rfl rfl
  ⟨h.2.2.2 (Or.inl rfl), h.1, h.2.1⟩

theorem isPrefixOf_self (l : List Char) : l.isPrefixOf l = true := by
  induction l with
  | nil => rfl
  | cons c t ih =>
    show (c == c && t.isPrefixOf t) = true
    simp [ih]

theorem hasSubstring_self (s : List Char) : hasSubstring s s = true := by
  cases s with
  | nil => rfl
  | cons c t =>
    rw [hasSubstring_cons, isPrefixOf_self]
    rfl

theorem hasSubstring_append_self (p s : List Char) :
    hasSubstring (p ++ s) s = true := by
  induction p with
  | nil => rw [List.nil_append]; exact hasSubstring_self s
  | cons c p' ih =>
    rw [List.cons_append, hasSubstring_cons, ih, Bool.or_true]

/-- C6: on a captured output, `compactFile` succeeds exactly when the
output contains the confirmation phrase
"1 files within 1 directories were compressed"; any other output yields
the verification error carrying the raw output, whose formatted message
contains that raw output. -/
theorem compactFile_phrase_iff (out : List Char) :
    (compactFile (.ok out) = none ↔
      hasSubstring out compactPhrase = true) ∧
    (hasSubstring out compactPhrase = false →
      compactFile (.ok out) = some (.verifyErr out) ∧
      hasSubstring (compactErrMsg out) out = true) := by
  have hok : compactFile (.ok out) =
      if hasSubstring out compactPhrase = true then none
      else some (.verifyErr out) := rfl
  constructor
  · constructor
    · intro h
      by_cases hp : hasSubstring out compactPhrase = true
      · exact hp
      · rw [hok, if_neg hp] at h
        exact absurd h (by simp)
    · intro hp
      rw [hok, if_pos hp]
  · intro hp
    refine ⟨?_, hasSubstring_append_self _ out⟩
    rw [hok, if_neg (by simp [hp])]

/-- Witness for C6: a generic error output and the empty output fail
verification; the exact phrase succeeds. -/
theorem compactFile_phrase_iff_witness :
    compactFile (.ok (("Access denied").data)) =
      some (.verifyErr (("Access denied").data)) ∧
    compactFile (.ok []) = some (.verifyErr []) ∧
    compactFile (.ok compactPhrase) = none :=
  ⟨((compactFile_phrase_iff _).2 (by decide)).1,
    ((compactFile_phrase_iff _).2 (by decide)).1,
    (compactFile_phrase_iff _).1.mpr (by decide)⟩

/-- C7 counterexample: for the little-endian payload `FF FE` (the single
wide character U+FEFF), prepending the little-endian byte-order mark does
not leave the decoding unchanged: the bare payload is consumed as a mark
and decodes to nothing, while the marked input decodes the payload to
U+FEFF. -/
theorem decodeWsl_bom_payload_counterexample :
    decodeWsl (0xFF :: 0xFE :: [0xFF, 0xFE]) ≠ decodeWsl [0xFF, 0xFE] ∧
    decodeWsl (0xFF :: 0xFE :: [0xFF, 0xFE]) = [0xEF, 0xBB, 0xBF] ∧
    decodeWsl [0xFF, 0xFE] = [] := by decide

/-- C7 (amended): byte-order-mark transparency
`decodeWsl (BOM ++ s) = decodeWsl s` holds for every payload `s` that
does not itself begin with one of the three byte-order marks the decoder
recognizes (UTF-8, UTF-16BE, UTF-16LE). -/
theorem decodeWsl_bom_transparent (s : List Nat)
    (h1 : startsWith bomUTF8 s = false)
    (h2 : startsWith bomBE s = false)
    (h3 : startsWith bomLE s = false) :
    decodeWsl (0xFF :: 0xFE :: s) = decodeWsl s := by
  unfold decodeWsl
  rw [show startsWith bomUTF8 (0xFF :: 0xFE :: s) = false from rfl,
    show startsWith bomBE (0xFF :: 0xFE :: s) = false from rfl,
    show startsWith bomLE (0xFF :: 0xFE :: s) = true from rfl,
    h1, h2, h3]
  simp

/-- Witness for C7's amended theorem: transparency at the payload for the
character "A". -/
theorem decodeWsl_bom_transparent_witness :
    decodeWsl [0xFF, 0xFE, 0x41, 0x00] = decodeWsl [0x41, 0x00] ∧
    decodeWsl [0x41, 0x00] = [0x41] :=
  ⟨decodeWsl_bom_transparent [0x41, 0x00] (by decide) (by decide)
      (by decide),
    by decide⟩

/-- C8 counterexample: malformed wide-character input does not surface a
decoding error — the decoder is total. An odd-length input (a lone byte)
and an unpaired high surrogate each decode to the UTF-8 encoding of the
replacement character U+FFFD. -/
theorem decodeWsl_malformed_replacement :
    decodeWsl [0x41] = [0xEF, 0xBF, 0xBD] ∧
    decodeWsl [0x00, 0xD8] = [0xEF, 0xBF, 0xBD] := by decide

theorem unitAt_lt (le : Bool) (b0 b1 : Nat) (h0 : b0 < 256)
    (h1 : b1 < 256) : unitAt le b0 b1 < 0x10000 := by
  unfold unitAt
  split <;> omega

theorem decodePair_bound (hi lo : Nat) :
    decodePair hi lo < 0xD800 ∨
      (0xE000 ≤ decodePair hi lo ∧ decodePair hi lo ≤ 0x10FFFF) := by
  unfold decodePair
  split
  · rename_i h
    simp only [isHighSurr, isLowSurr, Bool.and_eq_true, decide_eq_true_eq] at h
    right
    omega
  · right
    omega

/-- C8 (amended): the Text Decoder never fails: on arbitrary byte input
(malformed or not) every code point it produces is a valid Unicode
scalar value — ill-formed units are replaced by U+FFFD rather than
surfacing an error — and in particular any lone odd byte decodes to the
replacement character. -/
theorem nonSurr_unit_valid (le : Bool) (b0 b1 : Nat) (h0 : b0 < 256)
    (h1 : b1 < 256) (hs : ¬isSurr (unitAt le b0 b1) = true) :
    unitAt le b0 b1 < 0xD800 ∨
      (0xE000 ≤ unitAt le b0 b1 ∧ unitAt le b0 b1 ≤ 0x10FFFF) := by
  have hu := unitAt_lt le b0 b1 h0 h1
  have hs' : ¬(0xD800 ≤ unitAt le b0 b1 ∧ unitAt le b0 b1 < 0xE000) := by
    simpa [isSurr] using hs
  omega

theorem utf16Decode_total_valid (le : Bool) (b : List Nat)
    (hb : ∀ x ∈ b, x < 256) :
    (∀ r ∈ utf16Decode le b,
      r < 0xD800 ∨ (0xE000 ≤ r ∧ r ≤ 0x10FFFF)) ∧
    (∀ x : Nat, utf16Decode le [x] = [0xFFFD]) := by
  refine ⟨?_, fun _ => rfl⟩
  revert hb
  induction b using utf16Decode.induct
  case le => exact le
  case case1 =>
    intro _ r hr
    simp [utf16Decode] at hr
  case case2 x =>
    intro _ r hr
    simp only [utf16Decode, List.mem_singleton] at hr
    subst hr
    omega
  case case3 b0 b1 hs =>
    intro _ r hr
    simp [utf16Decode, hs] at hr
    subst hr
    omega
  case case4 b0 b1 hs =>
    intro hb r hr
    simp [utf16Decode, hs] at hr
    subst hr
    exact nonSurr_unit_valid le b0 b1 (hb b0 (by simp)) (hb b1 (by simp)) hs
  case case5 b0 b1 b2 hs ih =>
    intro _ r hr
    simp [utf16Decode, hs] at hr
    subst hr
    omega
  case case6 b0 b1 b2 hs ih =>
    intro hb r hr
    simp [utf16Decode, hs] at hr
    rcases hr with hr | hr <;> subst hr
    · exact nonSurr_unit_valid le b0 b1 (hb b0 (by simp)) (hb b1 (by simp)) hs
    · omega
  case case7 b0 b1 b2 b3 rest2 hs hl ih =>
    intro hb r hr
    simp only [utf16Decode, hs, hl, if_true, List.mem_cons] at hr
    rcases hr with hr | hr
    · subst hr
      exact decodePair_bound _ _
    · exact ih
        (fun x hx => hb x (List.mem_cons_of_mem b0 (List.mem_cons_of_mem b1
          (List.mem_cons_of_mem b2 (List.mem_cons_of_mem b3 hx))))) r hr
  case case8 b0 b1 b2 b3 rest2 hs hl ih =>
    intro hb r hr
    simp [utf16Decode, hs, hl] at hr
    rcases hr with hr | hr
    · subst hr
      omega
    · exact ih
        (fun x hx => hb x (List.mem_cons_of_mem b0 (List.mem_cons_of_mem b1
          hx))) r hr
  case case9 b0 b1 b2 b3 rest2 hs ih =>
    intro hb r hr
    simp [utf16Decode, hs] at hr
    rcases hr with hr | hr
    · subst hr
      exact nonSurr_unit_valid le b0 b1 (hb b0 (by simp)) (hb b1 (by simp)) hs
    · exact ih
        (fun x hx => hb x (List.mem_cons_of_mem b0 (List.mem_cons_of_mem b1
          hx))) r hr

/-- Witness for C8's amended theorem: the replacement character produced
for a lone byte is a valid scalar value. -/
theorem utf16Decode_total_valid_witness :
    (0xFFFD < 0xD800 ∨ (0xE000 ≤ 0xFFFD ∧ 0xFFFD ≤ 0x10FFFF)) ∧
    utf16Decode true [0x41] = [0xFFFD] :=
  ⟨(utf16Decode_total_valid true [0x41] (by decide)).1 0xFFFD (by decide),
    (utf16Decode_total_valid true [0x41] (by decide)).2 0x41⟩

/-- C9: when the process exits non-zero (and the pipe, start, and read
steps succeeded), `wslCmd` returns the captured stdout bytes raw and
undecoded together with the error, and `wslExport` therefore logs those
raw bytes on its failure path; the UTF-16-to-UTF-8 decoding runs only on
the success path, where it is not the identity (e.g. on `41 00`). -/
theorem wslCmd_failure_raw_bytes (stdout : List Nat) :
    wslCmdModel ⟨false, false, false, stdout, false⟩ =
      (some stdout, false) ∧
    wslCmdModel ⟨false, false, false, stdout, true⟩ =
      (some (decodeWsl stdout), true) ∧
    wslExportModel ⟨false, false, false, stdout, false⟩ = (false, stdout) ∧
    decodeWsl [0x41, 0x00] ≠ [0x41, 0x00] := by
  refine ⟨rfl, rfl, rfl, by decide⟩

end Wsl2Backup
